import Mathlib

/-
Formal model of `draw.py` (GitHub heatmap pixel art generator).

The program builds a 7-row by 52-column grid of integers, composites two
7x7 sprites and a dot trail onto it, inverts the binary grid, rewrites
every lit cell to the constant `COMMITS_FILL = 10`, and then either
previews the grid or creates one empty git commit per unit of cell
weight, backdated via `GIT_AUTHOR_DATE` / `GIT_COMMITTER_DATE`.

Modelling choices:
  * a grid is a `List (List Int)` (Python list of lists of ints);
    `grid[r][c] = v` becomes `setCell`, `grid[r][c]` becomes `getCell`;
  * calendar dates are integers counting days since 1970-01-01 (which
    was a Thursday, so Python `weekday()` of day `d` is `(d + 3) % 7`,
    with Monday = 0 and Sunday = 6, matching `datetime.weekday`);
  * the external `subprocess.run(["git", "commit", ...])` call is an
    oracle `exec : Nat -> Int` mapping the sequential message counter to
    the returncode of that invocation; `strftime` is an oracle
    `fmt : Int -> String`; the process environment `os.environ` is a
    `String -> Option String` map threaded through the run state so that
    (non-)mutation of it is visible in the model;
  * each performed external invocation is recorded in a trace list
    together with the environment map it received.
-/

-- Number of columns of the grid (`COLS = 52` in draw.py).
def COLS : Nat := 52

-- Weight written into every lit cell by the shading phase.
def COMMITS_FILL : Int := 10

abbrev Grid : Type := List (List Int)

-- Read `grid[r][c]`; out-of-range reads default to 0 (all reads the
-- program performs are in range on its 7x52 grid).
def getCell (g : Grid) (r c : Nat) : Int := (g.getD r []).getD c 0

-- Write `grid[r][c] = v` (a no-op out of range; the program only writes
-- in range, guarded by `col < COLS` where needed).
def setCell (g : Grid) (r c : Nat) (v : Int) : Grid :=
  List.set g r ((g.getD r []).set c v)

-- A grid that has exactly 7 rows of 52 columns each (COLS = 52).
def wellFormed (g : Grid) : Prop := g.length = 7 ∧ ∀ row ∈ g, row.length = 52

-- Pac-Man sprite facing left (7x7), from draw.py.
def PACMAN_LEFT : List (List Int) :=
  [[0, 1, 1, 1, 1, 1, 0],
   [1, 1, 1, 1, 1, 1, 1],
   [0, 1, 1, 1, 1, 1, 1],
   [0, 0, 0, 1, 1, 1, 1],
   [0, 1, 1, 1, 1, 1, 1],
   [1, 1, 1, 1, 1, 1, 1],
   [0, 1, 1, 1, 1, 1, 0]]

-- Ghost sprite (7x7), from draw.py.
def GHOST : List (List Int) :=
  [[0, 1, 1, 1, 1, 1, 0],
   [1, 1, 1, 1, 1, 1, 1],
   [1, 1, 0, 1, 0, 1, 1],
   [1, 1, 1, 1, 1, 1, 1],
   [1, 1, 1, 1, 1, 1, 1],
   [1, 1, 1, 1, 1, 1, 1],
   [1, 0, 1, 0, 1, 0, 1]]

-- One assignment of the inner loop body of `place`:
-- `col = start_col + c; if col < COLS: grid[r][col] = 1 if val else 0`.
def placePixel (r start_col : Nat) (g : Grid) (cv : Nat × Int) : Grid :=
  if start_col + cv.1 < COLS then
    setCell g r (start_col + cv.1) (if cv.2 ≠ 0 then 1 else 0)
  else g

-- The inner loop of `place` over `enumerate(row)` for one sprite row.
def placeRow (start_col : Nat) (g : Grid) (rrow : Nat × List Int) : Grid :=
  rrow.2.enum.foldl (placePixel rrow.1 start_col) g

-- `place(sprite, start_col)` from draw.py, as a function of the grid.
def place (sprite : List (List Int)) (start_col : Nat) (g : Grid) : Grid :=
  sprite.enum.foldl (placeRow start_col) g

-- `grid = [[0] * COLS for _ in range(7)]`
def grid0 : Grid := List.replicate 7 (List.replicate COLS 0)

-- `place(GHOST, 3)`
def grid1 : Grid := place GHOST 3 grid0

-- Dot trail: `for col in range(11, 40, 2): grid[3][col] = 1`.
-- `List.range' 11 15 2 = [11, 13, ..., 39]` is Python `range(11, 40, 2)`.
def grid2 : Grid := (List.range' 11 15 2).foldl (fun g col => setCell g 3 col 1) grid1

-- `place(PACMAN_LEFT, 41)`
def grid3 : Grid := place PACMAN_LEFT 41 grid2

-- Inversion: `grid[r][c] = 1 - grid[r][c]` for every cell.
def grid4 : Grid := grid3.map (fun row => row.map (fun x => 1 - x))

-- `compute_shading()`: every truthy cell becomes COMMITS_FILL.
def shadedGrid : Grid :=
  grid4.map (fun row => row.map (fun x => if x ≠ 0 then COMMITS_FILL else x))

-- -- Date helpers -----------------------------------------------------

-- Python `datetime.weekday()` of day number `d` (days since 1970-01-01,
-- a Thursday): Monday = 0, ..., Sunday = 6.
def weekday (d : Int) : Int := (d + 3) % 7

-- `days_since_sunday = (today.weekday() + 1) % 7` from get_heatmap_start.
def days_since_sunday (today : Int) : Int := (weekday today + 1) % 7

-- `get_heatmap_start()`: most recent Sunday on or before today, minus
-- `timedelta(weeks=51)` = 357 days.  Parameterised by `today`.
def get_heatmap_start (today : Int) : Int :=
  today - days_since_sunday today - 357

-- `col_row_to_date(start, col, row) = start + timedelta(days=col*7+row)`.
def col_row_to_date (start : Int) (col row : Nat) : Int :=
  start + ((col * 7 + row : Nat) : Int)

-- -- Preview statistics -----------------------------------------------

-- `lit_fill = sum(1 for r in range(7) for c in range(COLS) if grid[r][c] == COMMITS_FILL)`
def lit_fill (g : Grid) : Nat :=
  ((List.range 7).map
    (fun r => ((List.range COLS).filter (fun c => getCell g r c = COMMITS_FILL)).length)).sum

-- `total_commits = lit_fill * COMMITS_FILL`
def total_commits (g : Grid) : Int := (lit_fill g : Int) * COMMITS_FILL

-- `total_needed = sum(grid[r][c] for r in range(7) for c in range(COLS))`
def total_needed (g : Grid) : Int :=
  ((List.range 7).flatMap (fun r => (List.range COLS).map (fun c => getCell g r c))).sum

-- The cell traversal order of `make_commits`:
-- `for col in range(COLS): for row in range(7): ...`.
def cellOrder : List (Nat × Nat) :=
  (List.range COLS).flatMap (fun col => (List.range 7).map (fun row => (col, row)))

-- -- Commit driver model ----------------------------------------------

-- One performed external `git commit` invocation: the sequential
-- counter embedded in its message, the cell it belongs to, the
-- environment map passed to `subprocess.run`, and the returncode.
structure Invocation where
  msg : Nat
  col : Nat
  row : Nat
  env : String → Option String
  ret : Int

-- State of one `make_commits` run: the `count` and `errors` counters,
-- the number of progress messages printed so far, the process-wide
-- `os.environ`, and the trace of performed invocations.
structure RunState where
  count : Nat
  errors : Nat
  progress : Nat
  environ : String → Option String
  calls : List Invocation

-- `env = {**os.environ, 'GIT_AUTHOR_DATE': d, 'GIT_COMMITTER_DATE': d}`.
def commitEnv (base : String → Option String) (dateStr : String) : String → Option String :=
  fun k =>
    if k = "GIT_AUTHOR_DATE" then some dateStr
    else if k = "GIT_COMMITTER_DATE" then some dateStr
    else base k

-- One iteration of the inner `for _ in range(commits_for_cell)` loop:
-- `count += 1`, run git commit, and `errors += 1` on non-zero status.
def runCommit (exec : Nat → Int) (col row : Nat) (env : String → Option String)
    (st : RunState) : RunState :=
  ⟨st.count + 1,
   st.errors + (if exec (st.count + 1) ≠ 0 then 1 else 0),
   st.progress,
   st.environ,
   st.calls ++ [⟨st.count + 1, col, row, env, exec (st.count + 1)⟩]⟩

-- One iteration of the cell loop of `make_commits`: skip empty cells
-- (`if not commits_for_cell: continue`), otherwise build the forged
-- date environment, run the inner commit loop, then print a progress
-- line when `count % 200 == 0`.
def runCell (today : Int) (g : Grid) (exec : Nat → Int) (fmt : Int → String)
    (st : RunState) (cell : Nat × Nat) : RunState :=
  let w := getCell g cell.2 cell.1
  if w = 0 then st
  else
    let date := col_row_to_date (get_heatmap_start today) cell.1 cell.2
    let env := commitEnv st.environ (fmt date)
    let st1 := (List.range w.toNat).foldl (fun s _ => runCommit exec cell.1 cell.2 env s) st
    if st1.count % 200 = 0 then ⟨st1.count, st1.errors, st1.progress + 1, st1.environ, st1.calls⟩
    else st1

-- `make_commits()` from draw.py, parameterised by the current day
-- `today`, the grid, the subprocess returncode oracle `exec`, the
-- `strftime` oracle `fmt`, and the inherited `os.environ`.
def make_commits (today : Int) (g : Grid) (exec : Nat → Int) (fmt : Int → String)
    (baseEnv : String → Option String) : RunState :=
  cellOrder.foldl (runCell today g exec fmt) ⟨0, 0, 0, baseEnv, []⟩

-- Number of failing invocations among attempt numbers
-- `base + 1, ..., base + n` under the returncode oracle `exec`.
def countFails (exec : Nat → Int) (base n : Nat) : Nat :=
  ((List.range n).filter (fun i => exec (base + i + 1) ≠ 0)).length

-- The trace of invocations the inner commit loop performs for one cell,
-- starting from attempt counter `base`.
def invocationsFor (exec : Nat → Int) (col row : Nat) (env : String → Option String)
    (base n : Nat) : List Invocation :=
  (List.range n).map (fun i => ⟨base + i + 1, col, row, env, exec (base + i + 1)⟩)

-- A 7x52 grid with twenty weight-10 cells (total weight 200) used to
-- exercise `make_commits` on concrete oracles.
def cexGrid : Grid :=
  (List.replicate 20 (10 : Int) ++ List.replicate 32 0) ::
    List.replicate 6 (List.replicate 52 0)

-- Oracle on which every `git commit` invocation fails.
def failExec : Nat → Int := fun _ => 1

-- Oracle on which every third invocation fails.
def thirdExec : Nat → Int := fun k => if k % 3 = 0 then 1 else 0

-- Trivial `strftime` and `os.environ` stand-ins for concrete runs.
def cexFmt : Int → String := fun _ => ""

def cexEnv : String → Option String := fun _ => none

-- The all-failures concrete run of `make_commits` on `cexGrid`.
def cexRun : RunState := make_commits 0 cexGrid failExec cexFmt cexEnv

-- ===================== Theorems: grid invariants =====================

set_option maxRecDepth 10000 in
/-- Claim C1: after the shading phase the grid is exactly 7 rows by 52
columns and every cell is either 0 or the fixed weight W = 10
(`COMMITS_FILL`); the pipeline has no inputs, so this is a statement
about the one concrete grid it produces. -/
theorem C1_shaded_grid_invariant :
    wellFormed shadedGrid ∧
    ∀ r, r < 7 → ∀ c, c < 52 →
      getCell shadedGrid r c = 0 ∨ getCell shadedGrid r c = COMMITS_FILL := by
  unfold wellFormed
  decide

/-- Witness for C1 at cell (0, 0). -/
theorem C1_witness :
    getCell shadedGrid 0 0 = 0 ∨ getCell shadedGrid 0 0 = COMMITS_FILL :=
  C1_shaded_grid_invariant.2 0 (by decide) 0 (by decide)

-- ================ Theorems: preview / driver totals ==================

lemma sum_map_eq_count_mul (f : Nat → Int) :
    ∀ l : List Nat, (∀ c ∈ l, f c = 0 ∨ f c = COMMITS_FILL) →
      (l.map f).sum = ((l.filter (fun c => f c = COMMITS_FILL)).length : Int) * COMMITS_FILL := by
  intro l
  induction l with
  | nil => simp
  | cons c l ih =>
    intro h
    have hc := h c (List.mem_cons_self c l)
    have hrest := ih (fun x hx => h x (List.mem_cons_of_mem c hx))
    rcases hc with hc | hc <;>
      simp only [List.map_cons, List.sum_cons, List.filter_cons, hc, hrest, COMMITS_FILL,
        List.length_cons] <;>
      norm_num <;> push_cast <;> ring

/-- Claim C7: for every grid whose cells all lie in {0, W}, the total
reported by `preview` — `(count of cells equal to W) * W` — equals the
total the commit driver computes as the sum of all cell values. -/
theorem C7_preview_total_eq_driver_total (g : Grid)
    (h : ∀ r, r < 7 → ∀ c, c < 52 → getCell g r c = 0 ∨ getCell g r c = COMMITS_FILL) :
    total_commits g = total_needed g := by
  simp only [total_commits, total_needed, lit_fill]
  rw [List.flatMap_def, List.sum_flatten, List.map_map]
  rw [Nat.cast_list_sum, List.map_map, ← List.sum_map_mul_right]
  refine congrArg List.sum (List.map_congr_left ?_)
  intro r hr
  have hr7 : r < 7 := List.mem_range.mp hr
  simp only [Function.comp]
  exact (sum_map_eq_count_mul (fun c => getCell g r c)
    (List.range COLS) (fun c hc => h r hr7 c (List.mem_range.mp hc))).symm

set_option maxRecDepth 10000 in
/-- Witness for C7 on the concrete shaded grid of the program. -/
theorem C7_witness : total_commits shadedGrid = total_needed shadedGrid :=
  C7_preview_total_eq_driver_total shadedGrid (by decide)

-- ======================= Theorems: date claims =======================

-- The linear index of a cell under column-major, row-minor traversal.
def linIndex (cr : Nat × Nat) : Nat := cr.1 * 7 + cr.2

set_option maxRecDepth 4000 in
lemma cellOrder_map_linIndex : cellOrder.map linIndex = List.range 364 := by decide

set_option maxRecDepth 4000 in
lemma cellOrder_row_lt : ∀ x ∈ cellOrder, x.2 < 7 := by decide

lemma cellOrder_pairwise :
    List.Pairwise (fun a b : Nat × Nat => a.1 < b.1 ∨ (a.1 = b.1 ∧ a.2 < b.2)) cellOrder := by
  have hp : (cellOrder.map linIndex).Pairwise (· < ·) := by
    rw [cellOrder_map_linIndex]
    exact List.pairwise_lt_range 364
  have hl := List.pairwise_map.mp hp
  refine hl.imp_of_mem ?_
  intro a b ha hb h
  have h7a := cellOrder_row_lt a ha
  have h7b := cellOrder_row_lt b hb
  simp only [linIndex] at h
  omega

/-- Claim C3: cell dates are strictly increasing along the column-major,
row-minor enumeration order, for every start date (rows taken below 7);
`make_commits` iterates cells in exactly that order: it folds over
`cellOrder`, whose positions pairwise strictly precede one another in
column-major, row-minor order. -/
theorem C3_cell_date_strict_mono :
    (∀ (today : Int) (g : Grid) (exec : Nat → Int) (fmt : Int → String)
        (baseEnv : String → Option String),
      make_commits today g exec fmt baseEnv =
        cellOrder.foldl (runCell today g exec fmt) ⟨0, 0, 0, baseEnv, []⟩) ∧
    List.Pairwise (fun a b : Nat × Nat => a.1 < b.1 ∨ (a.1 = b.1 ∧ a.2 < b.2)) cellOrder ∧
    ∀ (start : Int) (c1 r1 c2 r2 : Nat), r1 < 7 → r2 < 7 →
      (c1 < c2 ∨ (c1 = c2 ∧ r1 < r2)) →
      col_row_to_date start c1 r1 < col_row_to_date start c2 r2 := by
  refine ⟨fun _ _ _ _ _ => rfl, cellOrder_pairwise, ?_⟩
  intro start c1 r1 c2 r2 h1 h2 h
  simp only [col_row_to_date]
  have : c1 * 7 + r1 < c2 * 7 + r2 := by omega
  omega

/-- Witness for C3 at concrete cells (1,0) before (1,1). -/
theorem C3_witness :
    col_row_to_date 0 1 0 < col_row_to_date 0 1 1 :=
  C3_cell_date_strict_mono.2.2 0 1 0 1 1 (by decide) (by decide) (Or.inr ⟨rfl, by decide⟩)

/-- Claim C4: for every `today`, `get_heatmap_start today + 357` is the
most recent Sunday on or before `today` (it is a Sunday, is at most
`today`, and every Sunday at most `today` is at most it), so the start
equals that Sunday minus exactly 357 days; consequently the date of the
last column's last row, `col_row_to_date start 51 6`, is on or after
`today`. -/
theorem C4_heatmap_start_window (today : Int) :
    weekday (get_heatmap_start today + 357) = 6 ∧
    get_heatmap_start today + 357 ≤ today ∧
    (∀ s : Int, weekday s = 6 → s ≤ today → s ≤ get_heatmap_start today + 357) ∧
    today ≤ col_row_to_date (get_heatmap_start today) 51 6 := by
  simp only [get_heatmap_start, days_since_sunday, weekday, col_row_to_date]
  refine ⟨by omega, by omega, ?_, by omega⟩
  intro s hs hle
  omega

/-- Witness for C4 at `today = 3` (1970-01-04, a Sunday), with the
inner quantifier applied to the Sunday `s = -4` (1969-12-28). -/
theorem C4_witness :
    weekday (get_heatmap_start 3 + 357) = 6 ∧
    (-4 : Int) ≤ get_heatmap_start 3 + 357 :=
  ⟨(C4_heatmap_start_window 3).1,
   (C4_heatmap_start_window 3).2.2.1 (-4) (by decide) (by decide)⟩

/-- Claim C5: for every `today`, the date returned by
`get_heatmap_start` falls on the designated week-start weekday
(Sunday, i.e. Python weekday 6). -/
theorem C5_heatmap_start_is_sunday (today : Int) :
    weekday (get_heatmap_start today) = 6 := by
  simp only [get_heatmap_start, days_since_sunday, weekday]
  omega

-- ================= Lemmas: setCell / place frame =====================

lemma wf_row_length (g : Grid) (h : wellFormed g) (r : Nat) (hr : r < 7) :
    (g.getD r []).length = 52 := by
  have hlen : r < g.length := by rw [h.1]; exact hr
  have heq : g.getD r [] = g[r] := by
    simp [List.getD_eq_getElem?_getD, List.getElem?_eq_getElem hlen]
  rw [heq]
  exact h.2 _ (List.getElem_mem hlen)

lemma wellFormed_setCell (g : Grid) (r c : Nat) (v : Int) (h : wellFormed g) :
    wellFormed (setCell g r c v) := by
  unfold setCell
  by_cases hr : r < g.length
  · constructor
    · rw [List.length_set]; exact h.1
    · intro row hrow
      rcases List.mem_or_eq_of_mem_set hrow with hm | he
      · exact h.2 row hm
      · subst he
        rw [List.length_set]
        have h7 := h.1
        exact wf_row_length g h r (by omega)
  · rw [List.set_eq_of_length_le (by omega)]
    exact h

lemma getCell_setCell (g : Grid) (r c : Nat) (v : Int) (r' c' : Nat) :
    getCell (setCell g r c v) r' c' =
      if r' = r ∧ c' = c ∧ r < g.length ∧ c < (g.getD r []).length then v
      else getCell g r' c' := by
  unfold getCell setCell
  by_cases hrl : r < g.length
  · by_cases hr : r' = r
    · subst hr
      have hrow : (g.set r' ((g.getD r' []).set c v)).getD r' [] = (g.getD r' []).set c v := by
        simp [List.getD_eq_getElem?_getD, List.getElem?_set_self hrl]
      rw [hrow]
      by_cases hc : c' = c
      · subst hc
        by_cases hcl : c' < (g.getD r' []).length
        · rw [if_pos ⟨rfl, rfl, hrl, hcl⟩]
          have hcl2 : c' < ((g[r']?).getD []).length := by
            rw [← List.getD_eq_getElem?_getD]; exact hcl
          simp [List.getD_eq_getElem?_getD, List.getElem?_set_self hcl2]
        · rw [List.set_eq_of_length_le (by omega), if_neg (by tauto)]
      · rw [if_neg (by tauto)]
        simp [List.getD_eq_getElem?_getD, List.getElem?_set_ne (fun hh => hc hh.symm)]
    · rw [if_neg (by tauto)]
      have hsame : (g.set r ((g.getD r []).set c v)).getD r' [] = g.getD r' [] := by
        simp [List.getD_eq_getElem?_getD, List.getElem?_set_ne (fun hh => hr hh.symm)]
      rw [hsame]
  · rw [List.set_eq_of_length_le (by omega), if_neg (by tauto)]

lemma wellFormed_placePixel (rIdx off : Nat) (g : Grid) (cv : Nat × Int) (h : wellFormed g) :
    wellFormed (placePixel rIdx off g cv) := by
  unfold placePixel
  split
  · exact wellFormed_setCell g rIdx (off + cv.1) _ h
  · exact h

lemma getCell_placePixel (rIdx off : Nat) (g : Grid) (cv : Nat × Int) (h : wellFormed g)
    (hrIdx : rIdx < 7) (r' c' : Nat) (hc' : c' < 52) :
    getCell (placePixel rIdx off g cv) r' c' =
      if r' = rIdx ∧ c' = off + cv.1 then (if cv.2 ≠ 0 then 1 else 0)
      else getCell g r' c' := by
  unfold placePixel
  by_cases hin : off + cv.1 < COLS
  · rw [if_pos hin, getCell_setCell]
    have h1 : rIdx < g.length := by rw [h.1]; exact hrIdx
    have h2 : off + cv.1 < (g.getD rIdx []).length := by
      rw [wf_row_length g h rIdx hrIdx]
      simpa [COLS] using hin
    by_cases hcond : r' = rIdx ∧ c' = off + cv.1
    · rw [if_pos ⟨hcond.1, hcond.2, h1, h2⟩, if_pos hcond]
    · rw [if_neg (by tauto), if_neg hcond]
  · rw [if_neg hin, if_neg]
    rintro ⟨-, hcc⟩
    simp only [COLS] at hin
    omega

lemma placePixel_of_big_row (rIdx off : Nat) (g : Grid) (cv : Nat × Int) (h : wellFormed g)
    (hr : 7 ≤ rIdx) : placePixel rIdx off g cv = g := by
  unfold placePixel
  split
  · unfold setCell
    rw [List.set_eq_of_length_le (by rw [h.1]; omega)]
  · rfl

lemma foldl_placePixel_big_row (rIdx off : Nat) (hr : 7 ≤ rIdx) :
    ∀ (l : List (Nat × Int)) (g : Grid), wellFormed g →
      l.foldl (placePixel rIdx off) g = g := by
  intro l
  induction l with
  | nil => intro g _; rfl
  | cons cv l ih =>
    intro g hwf
    rw [List.foldl_cons, placePixel_of_big_row rIdx off g cv hwf hr]
    exact ih g hwf

lemma foldl_placePixel_getCell (rIdx off : Nat) (hrIdx : rIdx < 7) :
    ∀ (row : List Int) (k : Nat) (g : Grid), wellFormed g →
      ∀ r' c', c' < 52 →
        getCell ((List.enumFrom k row).foldl (placePixel rIdx off) g) r' c' =
          if r' = rIdx ∧ off + k ≤ c' ∧ c' < off + k + row.length then
            (if row.getD (c' - (off + k)) 0 ≠ 0 then 1 else 0)
          else getCell g r' c' := by
  intro row
  induction row with
  | nil =>
    intro k g hwf r' c' hc'
    simp only [List.enumFrom, List.foldl_nil, List.length_nil]
    rw [if_neg (by intro hh; omega)]
  | cons v rest ih =>
    intro k g hwf r' c' hc'
    rw [List.enumFrom_cons, List.foldl_cons]
    rw [ih (k + 1) (placePixel rIdx off g (k, v)) (wellFormed_placePixel rIdx off g (k, v) hwf) r' c' hc']
    rw [getCell_placePixel rIdx off g (k, v) hwf hrIdx r' c' hc']
    simp only [List.length_cons]
    by_cases h1 : r' = rIdx
    · subst h1
      by_cases hA : off + (k + 1) ≤ c' ∧ c' < off + (k + 1) + rest.length
      · have hO1 : r' = r' ∧ off + (k + 1) ≤ c' ∧ c' < off + (k + 1) + rest.length :=
          ⟨rfl, hA.1, hA.2⟩
        have hO2 : r' = r' ∧ off + k ≤ c' ∧ c' < off + k + (rest.length + 1) :=
          ⟨rfl, by omega, by omega⟩
        rw [if_pos hO1, if_pos hO2]
        have hs : c' - (off + k) = (c' - (off + (k + 1))) + 1 := by omega
        rw [hs, List.getD_cons_succ]
      · rw [if_neg (fun hh => hA ⟨hh.2.1, hh.2.2⟩)]
        by_cases hB : c' = off + k
        · have hO1 : r' = r' ∧ c' = off + k := ⟨rfl, hB⟩
          have hO2 : r' = r' ∧ off + k ≤ c' ∧ c' < off + k + (rest.length + 1) :=
            ⟨rfl, by omega, by omega⟩
          rw [if_pos hO1, if_pos hO2]
          have hs : c' - (off + k) = 0 := by omega
          rw [hs, List.getD_cons_zero]
        · rw [if_neg (fun hh => hB hh.2), if_neg (by intro hh; omega)]
    · rw [if_neg (by tauto), if_neg (by tauto), if_neg (by tauto)]

lemma foldl_wellFormed {α : Type} (f : Grid → α → Grid)
    (hf : ∀ g a, wellFormed g → wellFormed (f g a)) :
    ∀ (l : List α) (g : Grid), wellFormed g → wellFormed (l.foldl f g) := by
  intro l
  induction l with
  | nil => intro g h; exact h
  | cons a l ih => intro g h; exact ih _ (hf g a h)

lemma wellFormed_placeRow (off : Nat) (g : Grid) (rrow : Nat × List Int) (h : wellFormed g) :
    wellFormed (placeRow off g rrow) :=
  foldl_wellFormed (placePixel rrow.1 off)
    (fun g cv hg => wellFormed_placePixel rrow.1 off g cv hg) rrow.2.enum g h

lemma wellFormed_place (sprite : List (List Int)) (off : Nat) (g : Grid) (h : wellFormed g) :
    wellFormed (place sprite off g) :=
  foldl_wellFormed (placeRow off) (fun g rrow hg => wellFormed_placeRow off g rrow hg)
    sprite.enum g h

lemma placeRow_big_row (off : Nat) (g : Grid) (rrow : Nat × List Int) (h : wellFormed g)
    (hr : 7 ≤ rrow.1) : placeRow off g rrow = g :=
  foldl_placePixel_big_row rrow.1 off hr rrow.2.enum g h

lemma foldl_placeRow_getCell (off : Nat) :
    ∀ (sprite : List (List Int)) (m : Nat) (g : Grid), wellFormed g →
      ∀ r' c', r' < 7 → c' < 52 →
        getCell ((List.enumFrom m sprite).foldl (placeRow off) g) r' c' =
          if m ≤ r' ∧ r' < m + sprite.length ∧ off ≤ c' ∧
              c' < off + (sprite.getD (r' - m) []).length then
            (if (sprite.getD (r' - m) []).getD (c' - off) 0 ≠ 0 then 1 else 0)
          else getCell g r' c' := by
  intro sprite
  induction sprite with
  | nil =>
    intro m g hwf r' c' hr' hc'
    simp only [List.enumFrom, List.foldl_nil, List.length_nil]
    rw [if_neg (by intro hh; omega)]
  | cons row rest ih =>
    intro m g hwf r' c' hr' hc'
    rw [List.enumFrom_cons, List.foldl_cons]
    have hwf1 : wellFormed (placeRow off g (m, row)) := wellFormed_placeRow off g (m, row) hwf
    rw [ih (m + 1) (placeRow off g (m, row)) hwf1 r' c' hr' hc']
    by_cases hm : m < 7
    · have hrow : getCell (placeRow off g (m, row)) r' c' =
          if r' = m ∧ off ≤ c' ∧ c' < off + row.length then
            (if row.getD (c' - off) 0 ≠ 0 then 1 else 0)
          else getCell g r' c' := by
        have h0 := foldl_placePixel_getCell m off hm row 0 g hwf r' c' hc'
        simpa using h0
      rw [hrow]
      simp only [List.length_cons]
      by_cases hrm : r' = m
      · subst hrm
        simp only [Nat.sub_self, List.getD_cons_zero, eq_self_iff_true, true_and]
        split_ifs <;> first | rfl | omega
      · by_cases hrm2 : m + 1 ≤ r'
        · have hsub : r' - m = (r' - (m + 1)) + 1 := by omega
          rw [hsub, List.getD_cons_succ]
          split_ifs <;> first | rfl | omega
        · rw [if_neg (by intro hh; omega), if_neg (by intro hh; exact hrm hh.1),
            if_neg (by intro hh; omega)]
    · have hident : placeRow off g (m, row) = g := placeRow_big_row off g (m, row) hwf (by omega)
      rw [hident]
      rw [if_neg (by intro hh; omega), if_neg (by intro hh; omega)]

lemma place_getCell (sprite : List (List Int)) (off : Nat) (g : Grid) (hwf : wellFormed g)
    (r c : Nat) (hr : r < 7) (hc : c < 52) :
    getCell (place sprite off g) r c =
      if r < sprite.length ∧ off ≤ c ∧ c < off + (sprite.getD r []).length then
        (if (sprite.getD r []).getD (c - off) 0 ≠ 0 then 1 else 0)
      else getCell g r c := by
  have h := foldl_placeRow_getCell off sprite 0 g hwf r c hr hc
  simp only [Nat.zero_add, Nat.sub_zero, Nat.zero_le, true_and] at h
  exact h

lemma sprite_row_length (sprite : List (List Int)) (hrows : ∀ row ∈ sprite, row.length = 7)
    (r : Nat) (hr : r < sprite.length) : (sprite.getD r []).length = 7 := by
  have heq : sprite.getD r [] = sprite[r] := by
    simp [List.getD_eq_getElem?_getD, List.getElem?_eq_getElem hr]
  rw [heq]
  exact hrows _ (List.getElem_mem hr)

/-- Claim C10: `place` modifies only the cells inside the sprite's
footprint (rows 0-6, columns `start_col` through `start_col + 6` that
lie below 52), setting each footprint cell to exactly the sprite's
binary value (so a background 0 pixel of the sprite overwrites any
foreground previously present), and leaves every other cell unchanged;
the grid stays 7x52. -/
theorem C10_place_frame (sprite : List (List Int)) (off : Nat) (g : Grid)
    (hwf : wellFormed g) (hlen : sprite.length = 7)
    (hrows : ∀ row ∈ sprite, row.length = 7) :
    wellFormed (place sprite off g) ∧
    ∀ r, r < 7 → ∀ c, c < 52 →
      getCell (place sprite off g) r c =
        if off ≤ c ∧ c < off + 7 then
          (if (sprite.getD r []).getD (c - off) 0 ≠ 0 then 1 else 0)
        else getCell g r c := by
  refine ⟨wellFormed_place sprite off g hwf, ?_⟩
  intro r hr c hc
  rw [place_getCell sprite off g hwf r c hr hc]
  rw [sprite_row_length sprite hrows r (by omega), hlen]
  split_ifs <;> first | rfl | omega

/-- Witness for C10: placing PACMAN_LEFT at column 41 on the zero grid,
cell (2, 43) receives the sprite's binary pixel value. -/
theorem C10_witness :
    getCell (place PACMAN_LEFT 41 grid0) 2 43 =
      if 41 ≤ 43 ∧ 43 < 41 + 7 then
        (if (PACMAN_LEFT.getD 2 []).getD (43 - 41) 0 ≠ 0 then 1 else 0)
      else getCell grid0 2 43 :=
  (C10_place_frame PACMAN_LEFT 41 grid0 (by unfold wellFormed; decide) (by decide)
    (by decide)).2 2 (by decide) 43 (by decide)

/-- Claim C6: for every 7x7 sprite and column offset with
`off + 7 > 52`, `place` silently drops the sprite columns that would
land at grid column 52 or beyond: the grid stays 7x52, the in-range
footprint columns receive the sprite's binary values, and every cell
left of the footprint is untouched (no error, no wrapping). -/
theorem C6_place_clips (sprite : List (List Int)) (off : Nat) (g : Grid)
    (hwf : wellFormed g) (hlen : sprite.length = 7)
    (hrows : ∀ row ∈ sprite, row.length = 7) (hclip : 52 < off + 7) :
    wellFormed (place sprite off g) ∧
    ∀ r, r < 7 → ∀ c, c < 52 →
      getCell (place sprite off g) r c =
        if off ≤ c then
          (if (sprite.getD r []).getD (c - off) 0 ≠ 0 then 1 else 0)
        else getCell g r c := by
  refine ⟨wellFormed_place sprite off g hwf, ?_⟩
  intro r hr c hc
  rw [place_getCell sprite off g hwf r c hr hc]
  rw [sprite_row_length sprite hrows r (by omega), hlen]
  split_ifs <;> first | rfl | omega

/-- Witness for C6: GHOST placed at column 48 (48 + 7 > 52); cell
(0, 50) inside the clipped footprint receives the sprite pixel. -/
theorem C6_witness :
    getCell (place GHOST 48 grid0) 0 50 =
      if 48 ≤ 50 then
        (if (GHOST.getD 0 []).getD (50 - 48) 0 ≠ 0 then 1 else 0)
      else getCell grid0 0 50 :=
  (C6_place_clips GHOST 48 grid0 (by unfold wellFormed; decide) (by decide)
    (by decide) (by decide)).2 0 (by decide) 50 (by decide)

-- ================= Lemmas: commit driver fold ========================

lemma countFails_succ (exec : Nat → Int) (base n : Nat) :
    countFails exec base (n + 1) =
      countFails exec base n + (if exec (base + n + 1) ≠ 0 then 1 else 0) := by
  unfold countFails
  rw [List.range_succ, List.filter_append, List.length_append, List.filter_singleton]
  split_ifs <;> simp_all

lemma innerFold_eq (exec : Nat → Int) (col row : Nat) (env : String → Option String) :
    ∀ (n : Nat) (st : RunState),
      (List.range n).foldl (fun s _ => runCommit exec col row env s) st =
        ⟨st.count + n,
         st.errors + countFails exec st.count n,
         st.progress,
         st.environ,
         st.calls ++ invocationsFor exec col row env st.count n⟩ := by
  intro n
  induction n with
  | zero =>
    intro st
    simp [countFails, invocationsFor]
  | succ n ih =>
    intro st
    rw [List.range_succ, List.foldl_append, ih st, List.foldl_cons, List.foldl_nil]
    simp only [runCommit, countFails_succ, invocationsFor, List.range_succ, List.map_append,
      List.map_cons, List.map_nil, RunState.mk.injEq]
    refine ⟨by omega, by omega, trivial, trivial, ?_⟩
    rw [List.append_assoc]

lemma runCell_count (today : Int) (g : Grid) (exec : Nat → Int) (fmt : Int → String)
    (st : RunState) (cell : Nat × Nat) :
    (runCell today g exec fmt st cell).count = st.count + (getCell g cell.2 cell.1).toNat := by
  simp only [runCell]
  split
  · rename_i hw; rw [hw]; rfl
  · rw [innerFold_eq]
    split <;> rfl

lemma runCell_environ (today : Int) (g : Grid) (exec : Nat → Int) (fmt : Int → String)
    (st : RunState) (cell : Nat × Nat) :
    (runCell today g exec fmt st cell).environ = st.environ := by
  simp only [runCell]
  split
  · rfl
  · rw [innerFold_eq]
    split <;> rfl

lemma runCell_errors (today : Int) (g : Grid) (exec : Nat → Int) (fmt : Int → String)
    (st : RunState) (cell : Nat × Nat) :
    (runCell today g exec fmt st cell).errors =
      st.errors + countFails exec st.count (getCell g cell.2 cell.1).toNat := by
  simp only [runCell]
  split
  · rename_i hw; rw [hw]; simp [countFails]
  · rw [innerFold_eq]
    split <;> rfl

lemma runCell_calls (today : Int) (g : Grid) (exec : Nat → Int) (fmt : Int → String)
    (st : RunState) (cell : Nat × Nat) :
    (runCell today g exec fmt st cell).calls =
      st.calls ++ invocationsFor exec cell.1 cell.2
        (commitEnv st.environ (fmt (col_row_to_date (get_heatmap_start today) cell.1 cell.2)))
        st.count (getCell g cell.2 cell.1).toNat := by
  simp only [runCell]
  split
  · rename_i hw; rw [hw]; simp [invocationsFor]
  · rw [innerFold_eq]
    split <;> rfl

lemma runCell_progress (today : Int) (g : Grid) (exec : Nat → Int) (fmt : Int → String)
    (st : RunState) (cell : Nat × Nat) :
    (runCell today g exec fmt st cell).progress =
      if getCell g cell.2 cell.1 ≠ 0 ∧ (st.count + (getCell g cell.2 cell.1).toNat) % 200 = 0
      then st.progress + 1 else st.progress := by
  simp only [runCell]
  split
  · rename_i hw
    rw [if_neg (fun hh => hh.1 hw)]
  · rename_i hw
    rw [innerFold_eq]
    split
    · rename_i hcond
      rw [if_pos ⟨hw, hcond⟩]
    · rename_i hcond
      rw [if_neg (fun hh => hcond hh.2)]

lemma countFails_add (exec : Nat → Int) (base m : Nat) :
    ∀ k, countFails exec base (m + k) = countFails exec base m + countFails exec (base + m) k := by
  intro k
  induction k with
  | zero => simp [countFails]
  | succ k ih =>
    have hm : m + (k + 1) = (m + k) + 1 := rfl
    rw [hm, countFails_succ, ih, countFails_succ]
    have he : base + (m + k) + 1 = base + m + k + 1 := by omega
    rw [he]
    omega

lemma foldCells_environ (today : Int) (g : Grid) (exec : Nat → Int) (fmt : Int → String) :
    ∀ (L : List (Nat × Nat)) (st : RunState),
      (L.foldl (runCell today g exec fmt) st).environ = st.environ := by
  intro L
  induction L with
  | nil => intro st; rfl
  | cons cr L ih =>
    intro st
    rw [List.foldl_cons, ih, runCell_environ]

lemma foldCells_count (today : Int) (g : Grid) (exec : Nat → Int) (fmt : Int → String) :
    ∀ (L : List (Nat × Nat)) (st : RunState),
      (L.foldl (runCell today g exec fmt) st).count =
        st.count + (L.map (fun cr => (getCell g cr.2 cr.1).toNat)).sum := by
  intro L
  induction L with
  | nil => intro st; simp
  | cons cr L ih =>
    intro st
    rw [List.foldl_cons, ih, runCell_count, List.map_cons, List.sum_cons]
    omega

lemma foldCells_errors (today : Int) (g : Grid) (exec : Nat → Int) (fmt : Int → String) :
    ∀ (L : List (Nat × Nat)) (st : RunState),
      (L.foldl (runCell today g exec fmt) st).errors =
        st.errors + countFails exec st.count (L.map (fun cr => (getCell g cr.2 cr.1).toNat)).sum := by
  intro L
  induction L with
  | nil => intro st; simp [countFails]
  | cons cr L ih =>
    intro st
    rw [List.foldl_cons, ih, runCell_errors, runCell_count, List.map_cons, List.sum_cons,
      countFails_add exec st.count (getCell g cr.2 cr.1).toNat]
    omega

lemma invocationsFor_length (exec : Nat → Int) (col row : Nat) (env : String → Option String)
    (base n : Nat) : (invocationsFor exec col row env base n).length = n := by
  unfold invocationsFor
  rw [List.length_map, List.length_range]

lemma foldCells_calls_length (today : Int) (g : Grid) (exec : Nat → Int) (fmt : Int → String) :
    ∀ (L : List (Nat × Nat)) (st : RunState),
      (L.foldl (runCell today g exec fmt) st).calls.length =
        st.calls.length + (L.map (fun cr => (getCell g cr.2 cr.1).toNat)).sum := by
  intro L
  induction L with
  | nil => intro st; simp
  | cons cr L ih =>
    intro st
    rw [List.foldl_cons, ih, runCell_calls, List.length_append, invocationsFor_length,
      List.map_cons, List.sum_cons]
    omega

lemma invocationsFor_filter_ret (exec : Nat → Int) (col row : Nat)
    (env : String → Option String) (base n : Nat) :
    ((invocationsFor exec col row env base n).filter (fun inv => inv.ret ≠ 0)).length =
      countFails exec base n := by
  unfold invocationsFor countFails
  rw [List.filter_map, List.length_map]
  rfl

lemma foldCells_errors_eq_filter (today : Int) (g : Grid) (exec : Nat → Int) (fmt : Int → String) :
    ∀ (L : List (Nat × Nat)) (st : RunState),
      st.errors = (st.calls.filter (fun inv => inv.ret ≠ 0)).length →
      st.count = st.calls.length →
      (L.foldl (runCell today g exec fmt) st).errors =
        ((L.foldl (runCell today g exec fmt) st).calls.filter (fun inv => inv.ret ≠ 0)).length := by
  intro L
  induction L with
  | nil => intro st h _; exact h
  | cons cr L ih =>
    intro st h hcl
    rw [List.foldl_cons]
    apply ih
    · rw [runCell_errors, runCell_calls, List.filter_append, List.length_append,
        invocationsFor_filter_ret, h, hcl]
    · rw [runCell_count, runCell_calls, List.length_append, invocationsFor_length, hcl]

lemma foldCells_progress (today : Int) (g : Grid) (exec : Nat → Int) (fmt : Int → String) :
    ∀ (L : List (Nat × Nat)) (st : RunState),
      (∀ cell ∈ L, getCell g cell.2 cell.1 = 0 ∨ getCell g cell.2 cell.1 = COMMITS_FILL) →
      st.count % 10 = 0 → st.progress = st.count / 200 →
      (L.foldl (runCell today g exec fmt) st).count % 10 = 0 ∧
      (L.foldl (runCell today g exec fmt) st).progress =
        (L.foldl (runCell today g exec fmt) st).count / 200 := by
  intro L
  induction L with
  | nil => intro st _ hm hp; exact ⟨hm, hp⟩
  | cons cr L ih =>
    intro st h hm hp
    rw [List.foldl_cons]
    refine ih _ (fun cell hc => h cell (List.mem_cons_of_mem cr hc)) ?_ ?_
    · rw [runCell_count]
      rcases h cr (List.mem_cons_self cr L) with hw | hw <;> rw [hw] <;> simp [COMMITS_FILL] <;> omega
    · rw [runCell_progress, runCell_count]
      rcases h cr (List.mem_cons_self cr L) with hw | hw
      · rw [hw]
        simp
        exact hp
      · rw [hw]
        simp only [COMMITS_FILL]
        have ht : ((10 : Int)).toNat = 10 := rfl
        simp only [ht]
        have hne : (10 : Int) ≠ 0 := by norm_num
        by_cases hc200 : (st.count + 10) % 200 = 0
        · rw [if_pos ⟨hne, hc200⟩]
          omega
        · rw [if_neg (fun hh => hc200 hh.2)]
          omega

lemma listMapRangeSum {M : Type} [AddCommMonoid M] (f : Nat → M) :
    ∀ n : Nat, ((List.range n).map f).sum = ∑ i ∈ Finset.range n, f i := by
  intro n
  induction n with
  | zero => simp
  | succ n ih =>
    rw [List.range_succ, List.map_append, List.sum_append, Finset.sum_range_succ, ih]
    simp

lemma total_needed_eq_attempts (g : Grid)
    (h : ∀ r, r < 7 → ∀ c, c < 52 → getCell g r c = 0 ∨ getCell g r c = COMMITS_FILL) :
    total_needed g = ((cellOrder.map (fun cr => (getCell g cr.2 cr.1).toNat)).sum : Int) := by
  have h1 : total_needed g = ∑ r ∈ Finset.range 7, ∑ c ∈ Finset.range 52, getCell g r c := by
    simp only [total_needed, COLS]
    rw [List.flatMap_def, List.sum_flatten, List.map_map, listMapRangeSum]
    refine Finset.sum_congr rfl ?_
    intro r _
    simp only [Function.comp]
    rw [listMapRangeSum]
  have h2 : (cellOrder.map (fun cr => (getCell g cr.2 cr.1).toNat)).sum =
      ∑ col ∈ Finset.range 52, ∑ row ∈ Finset.range 7, (getCell g row col).toNat := by
    simp only [cellOrder, COLS]
    rw [List.map_flatMap, List.flatMap_def, List.sum_flatten, List.map_map, listMapRangeSum]
    refine Finset.sum_congr rfl ?_
    intro col _
    simp only [Function.comp, List.map_map]
    rw [listMapRangeSum]
    exact Finset.sum_congr rfl fun i _ => rfl
  calc total_needed g
      = ∑ r ∈ Finset.range 7, ∑ c ∈ Finset.range 52, getCell g r c := h1
    _ = ∑ r ∈ Finset.range 7, ∑ c ∈ Finset.range 52, ((getCell g r c).toNat : Int) := by
        refine Finset.sum_congr rfl fun r hr => Finset.sum_congr rfl fun c hc => ?_
        rcases h r (Finset.mem_range.mp hr) c (Finset.mem_range.mp hc) with hv | hv <;>
          rw [hv] <;> decide
    _ = ∑ c ∈ Finset.range 52, ∑ r ∈ Finset.range 7, ((getCell g r c).toNat : Int) :=
        Finset.sum_comm
    _ = ((∑ c ∈ Finset.range 52, ∑ r ∈ Finset.range 7, (getCell g r c).toNat : Nat) : Int) := by
        push_cast
        rfl
    _ = ((cellOrder.map (fun cr => (getCell g cr.2 cr.1).toNat)).sum : Int) := by
        rw [h2]

-- ================== Theorems: commit driver claims ===================

/-- Claim C2: on a shaded grid with total weight T, `make_commits`
performs exactly T external commit invocations no matter how many fail,
its reported attempted count (`count`) equals T, and its reported
failed count (`errors`) equals the number of invocations whose
returncode was non-zero. -/
theorem C2_make_commits_tally (today : Int) (g : Grid) (exec : Nat → Int) (fmt : Int → String)
    (baseEnv : String → Option String)
    (h : ∀ r, r < 7 → ∀ c, c < 52 → getCell g r c = 0 ∨ getCell g r c = COMMITS_FILL) :
    (make_commits today g exec fmt baseEnv).calls.length = (total_needed g).toNat ∧
    (make_commits today g exec fmt baseEnv).count = (total_needed g).toNat ∧
    (make_commits today g exec fmt baseEnv).errors =
      (((make_commits today g exec fmt baseEnv).calls.filter (fun inv => inv.ret ≠ 0)).length) := by
  have hT : (total_needed g).toNat = (cellOrder.map (fun cr => (getCell g cr.2 cr.1).toNat)).sum := by
    rw [total_needed_eq_attempts g h, Int.toNat_natCast]
  unfold make_commits
  refine ⟨?_, ?_, ?_⟩
  · rw [foldCells_calls_length, hT]
    simp
  · rw [foldCells_count, hT]
    simp
  · exact foldCells_errors_eq_filter today g exec fmt cellOrder ⟨0, 0, 0, baseEnv, []⟩ rfl rfl

/-- Witness for C2 on the concrete grid `cexGrid` (total weight 200)
with an oracle failing every third invocation. -/
theorem C2_witness :
    (make_commits 0 cexGrid thirdExec cexFmt cexEnv).calls.length = (total_needed cexGrid).toNat ∧
    (make_commits 0 cexGrid thirdExec cexFmt cexEnv).count = (total_needed cexGrid).toNat ∧
    (make_commits 0 cexGrid thirdExec cexFmt cexEnv).errors =
      (((make_commits 0 cexGrid thirdExec cexFmt cexEnv).calls.filter
        (fun inv => inv.ret ≠ 0)).length) :=
  C2_make_commits_tally 0 cexGrid thirdExec cexFmt cexEnv (by decide)

/-- Claim C9: `make_commits` never mutates the process-wide environment:
`os.environ` is unchanged after the run, and every external invocation
received a freshly built map equal to the inherited environment extended
with GIT_AUTHOR_DATE and GIT_COMMITTER_DATE bound to its cell's forged
timestamp. -/
theorem C9_environment_frame (today : Int) (g : Grid) (exec : Nat → Int) (fmt : Int → String)
    (baseEnv : String → Option String) :
    (make_commits today g exec fmt baseEnv).environ = baseEnv ∧
    ∀ inv ∈ (make_commits today g exec fmt baseEnv).calls,
      inv.env = commitEnv baseEnv
        (fmt (col_row_to_date (get_heatmap_start today) inv.col inv.row)) := by
  unfold make_commits
  constructor
  · rw [foldCells_environ]
  · suffices hgen : ∀ (L : List (Nat × Nat)) (st : RunState),
        st.environ = baseEnv →
        (∀ inv ∈ st.calls, inv.env = commitEnv baseEnv
          (fmt (col_row_to_date (get_heatmap_start today) inv.col inv.row))) →
        ∀ inv ∈ (L.foldl (runCell today g exec fmt) st).calls,
          inv.env = commitEnv baseEnv
            (fmt (col_row_to_date (get_heatmap_start today) inv.col inv.row)) by
      exact hgen cellOrder ⟨0, 0, 0, baseEnv, []⟩ rfl (by intro inv hinv; simp at hinv)
    intro L
    induction L with
    | nil => intro st _ h2; exact h2
    | cons cr L ih =>
      intro st h1 h2
      rw [List.foldl_cons]
      refine ih _ (by rw [runCell_environ]; exact h1) ?_
      intro inv hinv
      rw [runCell_calls] at hinv
      rcases List.mem_append.mp hinv with hold | hnew
      · exact h2 inv hold
      · simp only [invocationsFor, List.mem_map, List.mem_range] at hnew
        obtain ⟨i, -, rfl⟩ := hnew
        simp only []
        rw [h1]

set_option maxRecDepth 10000 in
/-- Witness for C9: the first invocation of the concrete run `cexRun`
received exactly the inherited environment extended with the two forged
date variables for its cell. -/
theorem C9_witness :
    (cexRun.calls.getD 0 ⟨0, 0, 0, cexEnv, 0⟩).env =
      commitEnv cexEnv (cexFmt (col_row_to_date (get_heatmap_start 0)
        (cexRun.calls.getD 0 ⟨0, 0, 0, cexEnv, 0⟩).col
        (cexRun.calls.getD 0 ⟨0, 0, 0, cexEnv, 0⟩).row)) := by
  have hlen : 0 < cexRun.calls.length := by decide
  have hmem : cexRun.calls.getD 0 ⟨0, 0, 0, cexEnv, 0⟩ ∈ cexRun.calls := by
    rw [List.getD_eq_getElem?_getD, List.getElem?_eq_getElem hlen]
    exact List.getElem_mem hlen
  exact (C9_environment_frame 0 cexGrid failExec cexFmt cexEnv).2 _ hmem

/-- Claim C8, amended: on a shaded grid (all cells in {0, W}), a
progress line is printed at every 200th commit ATTEMPT, successful or
not — the check `count % 200 == 0` runs after each non-empty cell and
`count` counts attempts regardless of outcome — so the number of
progress lines equals the attempt counter divided by 200.  The claim as
stated (every 200th SUCCESSFUL attempt) is refuted separately on a
concrete all-failures run. -/
theorem C8_progress_every_200_attempts (today : Int) (g : Grid) (exec : Nat → Int)
    (fmt : Int → String) (baseEnv : String → Option String)
    (h : ∀ r, r < 7 → ∀ c, c < 52 → getCell g r c = 0 ∨ getCell g r c = COMMITS_FILL) :
    (make_commits today g exec fmt baseEnv).progress =
      (make_commits today g exec fmt baseEnv).count / 200 := by
  unfold make_commits
  have hcells : ∀ cell ∈ cellOrder,
      getCell g cell.2 cell.1 = 0 ∨ getCell g cell.2 cell.1 = COMMITS_FILL := by
    intro cell hc
    simp only [cellOrder, List.mem_flatMap, List.mem_map, List.mem_range, COLS] at hc
    obtain ⟨col, hcol, row, hrow, rfl⟩ := hc
    exact h row hrow col hcol
  exact (foldCells_progress today g exec fmt cellOrder ⟨0, 0, 0, baseEnv, []⟩ hcells
    (by simp) (by simp)).2

set_option maxRecDepth 10000 in
/-- Counterexample to claim C8 as stated: on the concrete grid
`cexGrid` (total weight 200) with an oracle on which EVERY invocation
fails, the run performs 200 attempts, all 200 fail (zero successes),
and yet one progress line is printed — so progress lines are not tied
to the 200th successful attempt, but to the 200th attempt. -/
theorem C8_counterexample :
    cexRun.count = 200 ∧ cexRun.errors = 200 ∧ cexRun.progress = 1 := by
  decide

set_option maxRecDepth 10000 in
/-- Witness for the amended C8 on the all-failures concrete run. -/
theorem C8_witness :
    (make_commits 0 cexGrid failExec cexFmt cexEnv).progress =
      (make_commits 0 cexGrid failExec cexFmt cexEnv).count / 200 :=
  C8_progress_every_200_attempts 0 cexGrid failExec cexFmt cexEnv (by decide)
